import Mathlib

/-!
Shallow embedding of the core of the tracker-rs BitTorrent tracker:
the peer registry (src/stores/peer_store.rs), the announce pipeline tail
(src/handlers/announce.rs), the bencode response builder
(src/bencode/response.rs, src/bencode/encoder.rs), the append-only log
(src/wal/wal.rs), the rate limiter (src/security/rate_limiter.rs), the
ratio anti-abuse check (src/anti_cheat/ratio_check.rs) and parameter
validation helpers (src/validation/params.rs, src/utils/hex.rs).

Machine integers are modelled as Nat with explicit reduction modulo 2 ^ 32
where the Rust code uses wrapping u32 arithmetic (the AtomicU32 counters).
Byte strings are lists of Nat below 256.  Fallible Rust functions returning
a Result are modelled with Except or Option.
-/

namespace Tracker

/-- Byte strings are lists of naturals in the range 0..255. -/
abbrev Bytes := List Nat

/-- ASCII decimal digits of a natural number, most significant first
(models the itoa and Display formatting of unsigned integers in Rust). -/
def natBytes (n : Nat) : Bytes :=
  if n = 0 then [48] else ((Nat.digits 10 n).reverse).map (fun d => 48 + d)

/-- ASCII bytes of a string literal; every literal used in this file is
plain ASCII, so the code point is the byte. -/
def strB (s : String) : Bytes := s.data.map Char.toNat

/-- Models str::parse for an unsigned Rust integer type whose exclusive
upper bound is lim (u32: lim = 2 ^ 32, u8: lim = 256).  Rust accepts an
optional leading plus sign followed by one or more ASCII decimal digits and
rejects everything else, including values at or beyond the type bound. -/
def parseUNat (lim : Nat) (bs : Bytes) : Option Nat :=
  let digits := if bs.head? = some 43 then bs.tail else bs
  if digits = [] then none
  else if digits.all (fun b => decide (48 ≤ b ∧ b ≤ 57)) then
    let v := digits.foldl (fun acc b => acc * 10 + (b - 48)) 0
    if v < lim then some v else none
  else none

/-- Lowercase hexadecimal digit byte for a value below 16 (models the hex
crate encoding used by the log). -/
def hexChar (v : Nat) : Nat := if v < 10 then 48 + v else 87 + v

/-- Hex encoding of a byte string, two lowercase digits per byte
(models hex::encode). -/
def hexEnc (bs : Bytes) : Bytes :=
  bs.flatMap (fun b => [hexChar (b / 16), hexChar (b % 16)])

/-- Value of one hexadecimal digit byte, accepting 0-9, a-f and A-F
(models the digit handling of hex::decode and of char::to_digit 16). -/
def hexVal (b : Nat) : Option Nat :=
  if 48 ≤ b ∧ b ≤ 57 then some (b - 48)
  else if 97 ≤ b ∧ b ≤ 102 then some (b - 87)
  else if 65 ≤ b ∧ b ≤ 70 then some (b - 55)
  else none

/-- Hex decoding of a byte string (models hex::decode): fails on odd
length or on any non-hex digit. -/
def hexDec : Bytes → Option Bytes
  | [] => some []
  | [_] => none
  | b1 :: b2 :: rest => do
      let v1 ← hexVal b1
      let v2 ← hexVal b2
      let r ← hexDec rest
      pure ((16 * v1 + v2) :: r)

/-- IP addresses: a v4 address is its 32-bit value, a v6 address its
128-bit value, both in network order (models std::net::IpAddr). -/
inductive IpAddr where
  | v4 (addr : Nat)
  | v6 (addr : Nat)
deriving DecidableEq

/-- Whether the address is IPv4 (models matches! on IpAddr::V4). -/
def IpAddr.isV4 : IpAddr → Bool
  | .v4 _ => true
  | .v6 _ => false

/-- Whether the address is IPv6 (models matches! on IpAddr::V6). -/
def IpAddr.isV6 : IpAddr → Bool
  | .v4 _ => false
  | .v6 _ => true

/-- Network-order octets of an address: 4 bytes for v4, 16 bytes for v6
(models Ipv4Addr::octets and Ipv6Addr::octets). -/
def IpAddr.octets : IpAddr → Bytes
  | .v4 a => [a / 2 ^ 24 % 256, a / 2 ^ 16 % 256, a / 2 ^ 8 % 256, a % 256]
  | .v6 a => (List.range 16).map (fun i => a / 2 ^ (8 * (15 - i)) % 256)

/-- Big-endian bytes of a u16 port (models u16::to_be_bytes). -/
def portBytes (p : Nat) : Bytes := [p / 256 % 256, p % 256]

/-- An active peer in a swarm (models models/peer.rs Peer). -/
structure Peer where
  user_id : Nat
  torrent_id : Nat
  peer_id : Bytes
  ip : IpAddr
  port : Nat
  uploaded : Nat
  downloaded : Nat
  left : Nat
  last_announce : Int
  user_agent : String
  is_seeder : Bool
deriving DecidableEq

/-- Peer constructor: the seeder flag is derived from left == 0
(models Peer::new). -/
def Peer.new (user_id torrent_id : Nat) (peer_id : Bytes) (ip : IpAddr)
    (port uploaded downloaded left : Nat) (last_announce : Int)
    (user_agent : String) : Peer :=
  ⟨user_id, torrent_id, peer_id, ip, port, uploaded, downloaded, left,
    last_announce, user_agent, left == 0⟩

/-- Lookup in an association list (models DashMap::get; keys are unique in
every map the code builds). -/
def lookupA {α β : Type} [DecidableEq α] : List (α × β) → α → Option β
  | [], _ => none
  | (k, v) :: rest, key => if k = key then some v else lookupA rest key

/-- Insert or replace in an association list (models DashMap::insert and
the entry or-insert pattern). -/
def insertA {α β : Type} [DecidableEq α] : List (α × β) → α → β → List (α × β)
  | [], key, val => [(key, val)]
  | (k, v) :: rest, key, val =>
      if k = key then (key, val) :: rest else (k, v) :: insertA rest key val

/-- Remove a key from an association list (models DashMap::remove). -/
def eraseA {α β : Type} [DecidableEq α] : List (α × β) → α → List (α × β)
  | [], _ => []
  | (k, v) :: rest, key => if k = key then rest else (k, v) :: eraseA rest key

/-- Insert into a set represented as a duplicate-free list
(models DashSet::insert). -/
def setInsert {α : Type} [DecidableEq α] (s : List α) (x : α) : List α :=
  if x ∈ s then s else x :: s

/-- Wrapping u32 increment (models AtomicU32::fetch_add 1). -/
def u32succ (n : Nat) : Nat := (n + 1) % 2 ^ 32

/-- Wrapping u32 decrement (models AtomicU32::fetch_sub 1). -/
def u32pred (n : Nat) : Nat := (n + (2 ^ 32 - 1)) % 2 ^ 32

/-- Per-torrent counter pair (models TorrentStats in peer_store.rs). -/
structure TorrentStats where
  seeders : Nat
  leechers : Nat
deriving DecidableEq

/-- The in-memory peer registry: swarms keyed by info-hash, counters keyed
by info-hash, and the user-ip index keyed by user id and torrent id
(models PeerStore in peer_store.rs). -/
structure PeerStore where
  peers : List (Bytes × List (Bytes × Peer))
  stats : List (Bytes × TorrentStats)
  user_ips : List ((Nat × Nat) × List IpAddr)
deriving DecidableEq

/-- Fresh empty store (models PeerStore::new). -/
def PeerStore.empty : PeerStore := ⟨[], [], []⟩

/-- Add a new peer to the store (models PeerStore::add_peer; the Rust
function always returns Ok, so the model returns the new store directly).
The swarm map, the counter pair and the user-ip entry are created on first
use; the counter is incremented only when the peer id was absent. -/
def add_peer (s : PeerStore) (info_hash : Bytes) (peer : Peer) : PeerStore :=
  let pm := (lookupA s.peers info_hash).getD []
  let st := (lookupA s.stats info_hash).getD ⟨0, 0⟩
  let ips := (lookupA s.user_ips (peer.user_id, peer.torrent_id)).getD []
  let ips2 := setInsert ips peer.ip
  let is_new := (lookupA pm peer.peer_id).isNone
  let st2 :=
    if is_new then
      if peer.is_seeder then { st with seeders := u32succ st.seeders }
      else { st with leechers := u32succ st.leechers }
    else st
  { peers := insertA s.peers info_hash (insertA pm peer.peer_id peer),
    stats := insertA s.stats info_hash st2,
    user_ips := insertA s.user_ips (peer.user_id, peer.torrent_id) ips2 }

/-- Update an existing peer (models PeerStore::update_peer): fails when the
swarm or its counter pair is missing; inserts the new IP into the user-ip
index; moves one count between the counters when the seeder flag flips. -/
def update_peer (s : PeerStore) (info_hash peer_id : Bytes) (peer : Peer) :
    Except String PeerStore :=
  match lookupA s.peers info_hash with
  | none => .error "Torrent not found in peer store"
  | some pm =>
    match lookupA s.stats info_hash with
    | none => .error "Stats not found for torrent"
    | some st =>
      let ips2 :=
        setInsert ((lookupA s.user_ips (peer.user_id, peer.torrent_id)).getD []) peer.ip
      let st2 :=
        match lookupA pm peer_id with
        | some old =>
          if old.is_seeder ≠ peer.is_seeder then
            if peer.is_seeder then
              { st with leechers := u32pred st.leechers, seeders := u32succ st.seeders }
            else
              { st with seeders := u32pred st.seeders, leechers := u32succ st.leechers }
          else st
        | none => st
      .ok { peers := insertA s.peers info_hash (insertA pm peer_id peer),
            stats := insertA s.stats info_hash st2,
            user_ips := insertA s.user_ips (peer.user_id, peer.torrent_id) ips2 }

/-- Remove a peer (models PeerStore::remove_peer): fails when the swarm or
its counter pair is missing; when the peer id is present, decrements its
counter and removes its IP from the user-ip index, dropping the index entry
when the set becomes empty. -/
def remove_peer (s : PeerStore) (info_hash peer_id : Bytes) :
    Except String PeerStore :=
  match lookupA s.peers info_hash with
  | none => .error "Torrent not found in peer store"
  | some pm =>
    match lookupA s.stats info_hash with
    | none => .error "Stats not found for torrent"
    | some st =>
      match lookupA pm peer_id with
      | none => .ok s
      | some peer =>
        let st2 :=
          if peer.is_seeder then { st with seeders := u32pred st.seeders }
          else { st with leechers := u32pred st.leechers }
        let user_ips2 :=
          match lookupA s.user_ips (peer.user_id, peer.torrent_id) with
          | none => s.user_ips
          | some ips =>
            let ips2 := ips.erase peer.ip
            if ips2 = [] then eraseA s.user_ips (peer.user_id, peer.torrent_id)
            else insertA s.user_ips (peer.user_id, peer.torrent_id) ips2
        .ok { peers := insertA s.peers info_hash (eraseA pm peer_id),
              stats := insertA s.stats info_hash st2,
              user_ips := user_ips2 }

/-- Peer list query (models PeerStore::get_peers): collect every peer whose
map key differs from the excluded peer id, shuffle, truncate to num_want.
The random shuffle is passed in as a function parameter; theorems assume
only that it permutes its input. -/
def get_peers (s : PeerStore) (shuffle : List Peer → List Peer)
    (info_hash : Bytes) (num_want : Nat) (exclude_peer_id : Bytes) : List Peer :=
  match lookupA s.peers info_hash with
  | none => []
  | some pm =>
    let collected := (pm.filter (fun e => e.1 ≠ exclude_peer_id)).map Prod.snd
    (shuffle collected).take num_want

/-- Counter read (models PeerStore::get_stats): (0, 0) for unknown swarms. -/
def get_stats (s : PeerStore) (info_hash : Bytes) : Nat × Nat :=
  match lookupA s.stats info_hash with
  | some st => (st.seeders, st.leechers)
  | none => (0, 0)

/-- Size of a user-ip index entry (models PeerStore::get_user_ip_count). -/
def get_user_ip_count (s : PeerStore) (user_id torrent_id : Nat) : Nat :=
  match lookupA s.user_ips (user_id, torrent_id) with
  | some ips => ips.length
  | none => 0

/-- Evict one stale peer during cleanup (the loop body of
PeerStore::cleanup_stale_peers, given the swarm map and counter pair were
found): mirrors the counter and user-ip maintenance of remove_peer. -/
def evictPeer (st : PeerStore) (info_hash : Bytes) (peer_id : Bytes)
    (peer : Peer) : PeerStore :=
  let pm := (lookupA st.peers info_hash).getD []
  let cs := (lookupA st.stats info_hash).getD ⟨0, 0⟩
  let cs2 :=
    if peer.is_seeder then { cs with seeders := u32pred cs.seeders }
    else { cs with leechers := u32pred cs.leechers }
  let user_ips2 :=
    match lookupA st.user_ips (peer.user_id, peer.torrent_id) with
    | none => st.user_ips
    | some ips =>
      let ips2 := ips.erase peer.ip
      if ips2 = [] then eraseA st.user_ips (peer.user_id, peer.torrent_id)
      else insertA st.user_ips (peer.user_id, peer.torrent_id) ips2
  { peers := insertA st.peers info_hash (eraseA pm peer_id),
    stats := insertA st.stats info_hash cs2,
    user_ips := user_ips2 }

/-- Reaper pass (models PeerStore::cleanup_stale_peers with the wall clock
passed in explicitly): for every swarm that has a counter pair, every peer
with current_time - last_announce > timeout is evicted; returns the store
and the number of evicted peers. -/
def cleanup_stale_peers (s : PeerStore) (current_time timeout : Int) :
    PeerStore × Nat :=
  (s.peers.map Prod.fst).foldl
    (fun acc info_hash =>
      match lookupA acc.1.stats info_hash with
      | none => acc
      | some _ =>
        let pm := (lookupA acc.1.peers info_hash).getD []
        let stale := pm.filter (fun e => current_time - e.2.last_announce > timeout)
        stale.foldl
          (fun acc2 e => (evictPeer acc2.1 info_hash e.1 e.2, acc2.2 + 1)) acc)
    (s, 0)

/-- Wire-format byte-string encoding: decimal length, a colon, the raw
bytes (models the BencodeEncode impl for byte slices in encoder.rs). -/
def bencodeBytes (bs : Bytes) : Bytes := natBytes bs.length ++ 58 :: bs

/-- Byte-string encoding of an ASCII literal (models the str impl). -/
def bencodeStr (s : String) : Bytes := bencodeBytes (strB s)

/-- Signed decimal bytes of an i64 value. -/
def intBytes (i : Int) : Bytes :=
  if i < 0 then 45 :: natBytes i.natAbs else natBytes i.toNat

/-- Wire-format integer encoding: the letter i, the decimal value, the
letter e (models the BencodeEncode impl for i64). -/
def bencodeInt (i : Int) : Bytes := 105 :: intBytes i ++ [101]

/-- Compact IPv4 peer list (models encode_compact_peers in response.rs):
the byte string 0: when no v4 peer exists, otherwise the decimal byte
count, a colon, then 4 address octets and 2 big-endian port octets per v4
peer; v6 peers are skipped. -/
def encode_compact_peers (peers : List Peer) : Bytes :=
  let v4 := peers.filter (fun p => p.ip.isV4)
  if v4.length = 0 then strB "0:"
  else natBytes (v4.length * 6) ++ 58 ::
    v4.flatMap (fun p => p.ip.octets ++ portBytes p.port)

/-- Compact IPv6 peer list (models encode_compact_peers_ipv6): 16 address
octets and 2 port octets per v6 peer; v4 peers are skipped. -/
def encode_compact_peers_ipv6 (peers : List Peer) : Bytes :=
  let v6 := peers.filter (fun p => p.ip.isV6)
  if v6.length = 0 then strB "0:"
  else natBytes (v6.length * 18) ++ 58 ::
    v6.flatMap (fun p => p.ip.octets ++ portBytes p.port)

/-- Dotted-decimal text for v4; for v6 a simplified lowercase full-form
(the std Display for Ipv6Addr also compresses zero runs, which no claim
depends on: the dictionary peer-list branch is never evaluated on a
non-empty v6 list in any theorem below). -/
def ipText : IpAddr → Bytes
  | .v4 a =>
      natBytes (a / 2 ^ 24 % 256) ++ 46 :: natBytes (a / 2 ^ 16 % 256) ++
        46 :: natBytes (a / 2 ^ 8 % 256) ++ 46 :: natBytes (a % 256)
  | .v6 a =>
      List.intercalate [58]
        ((List.range 8).map
          (fun i =>
            let g := a / 2 ^ (16 * (7 - i)) % 65536
            if g = 0 then [48]
            else ((Nat.digits 16 g).reverse).map hexChar))

/-- Dictionary-format peer list (models encode_dict_peers): a list of
dictionaries with keys ip, peer id, port. -/
def encode_dict_peers (peers : List Peer) : Bytes :=
  108 :: peers.flatMap
    (fun p =>
      100 :: (bencodeStr "ip" ++ bencodeBytes (ipText p.ip) ++
        bencodeStr "peer id" ++ bencodeBytes p.peer_id ++
        bencodeStr "port" ++ bencodeInt p.port) ++ [101]) ++ [101]

/-- Announce response builder (models build_announce_response in
response.rs): a dictionary with complete, incomplete, interval 1800,
min interval 900, then either the two compact strings or the dictionary
peer list, chosen by the compact flag. -/
def build_announce_response (peers : List Peer) (seeders leechers : Nat)
    (compact : Bool) : Bytes :=
  100 :: (bencodeStr "complete" ++ bencodeInt seeders ++
    bencodeStr "incomplete" ++ bencodeInt leechers ++
    bencodeStr "interval" ++ bencodeInt 1800 ++
    bencodeStr "min interval" ++ bencodeInt 900 ++
    (if compact then
      bencodeStr "peers" ++ encode_compact_peers peers ++
        bencodeStr "peers6" ++ encode_compact_peers_ipv6 peers
    else bencodeStr "peers" ++ encode_dict_peers peers)) ++ [101]

/-- Lifecycle events of an announce (models AnnounceEvent in params.rs). -/
inductive AnnounceEvent where
  | started
  | stopped
  | completed
deriving DecidableEq

/-- The validated announce parameters the pipeline tail consumes (the
relevant fields of ValidatedAnnounceParams in params.rs; the passkey and
ip override are resolved before this point). -/
structure ValidatedAnnounceParams where
  info_hash : Bytes
  peer_id : Bytes
  port : Nat
  uploaded : Nat
  downloaded : Nat
  left : Nat
  event : Option AnnounceEvent
  numwant : Nat
  compact : Bool
deriving DecidableEq

/-- The state-mutating tail of announce_handler (handlers/announce.rs),
from the existing-peer lookup through lifecycle handling, registry
mutation and response construction.  The anti-abuse checks between those
steps only log and never change state or control flow, so they do not
appear.  Note the lookup of the existing peer goes through get_peers with
the requesting peer id excluded, exactly as in the source. -/
def announce_core (s : PeerStore) (shuffle : List Peer → List Peer)
    (user_id torrent_id : Nat) (v : ValidatedAnnounceParams) (ip : IpAddr)
    (user_agent : String) (now : Int) : Except String (PeerStore × Bytes) :=
  let existing_peer :=
    (get_peers s shuffle v.info_hash 1 v.peer_id).find?
      (fun p => p.user_id = user_id)
  match v.event with
  | some .stopped =>
    let s2 :=
      match remove_peer s v.info_hash v.peer_id with
      | .ok s2 => s2
      | .error _ => s
    let st := get_stats s2 v.info_hash
    .ok (s2, build_announce_response [] st.1 st.2 v.compact)
  | _ =>
    let peer := Peer.new user_id torrent_id v.peer_id ip v.port v.uploaded
      v.downloaded v.left now user_agent
    let res :=
      if existing_peer.isSome then update_peer s v.info_hash v.peer_id peer
      else .ok (add_peer s v.info_hash peer)
    match res with
    | .error e => .error e
    | .ok s2 =>
      let peers := get_peers s2 shuffle v.info_hash v.numwant v.peer_id
      let st := get_stats s2 v.info_hash
      .ok (s2, build_announce_response peers st.1 st.2 v.compact)

/-- Per-IP rate limiter state (models RateLimiter in rate_limiter.rs):
request buckets keyed by source IP holding a wrapping u32 count and a
window-start timestamp. -/
structure RateLimiter where
  requests : List (IpAddr × (Nat × Int))
  max_requests_per_minute : Nat
deriving DecidableEq

/-- Fresh limiter (models RateLimiter::new). -/
def RateLimiter.new (max : Nat) : RateLimiter := ⟨[], max⟩

/-- One rate-limit check (models RateLimiter::check_and_increment): a
missing bucket is installed as (0, now); a bucket whose window elapsed
(now - window_start at least 60) is reset to (1, now) with result true;
otherwise the count is incremented with wrapping u32 arithmetic and the
result is count at most max_requests_per_minute. -/
def check_and_increment (rl : RateLimiter) (ip : IpAddr) (current_time : Int) :
    Bool × RateLimiter :=
  let e := (lookupA rl.requests ip).getD (0, current_time)
  if current_time - e.2 ≥ 60 then
    (true, { rl with requests := insertA rl.requests ip (1, current_time) })
  else
    let c := (e.1 + 1) % 2 ^ 32
    (decide (c ≤ rl.max_requests_per_minute),
      { rl with requests := insertA rl.requests ip (c, e.2) })

/-- Run a sequence of checks from one IP, collecting the results. -/
def runCalls (rl : RateLimiter) (ip : IpAddr) : List Int → List Bool × RateLimiter
  | [] => ([], rl)
  | t :: ts =>
    let r := check_and_increment rl ip t
    let rest := runCalls r.2 ip ts
    (r.1 :: rest.1, rest.2)

/-- The structured anti-abuse violation the ratio check could report
(models AntiCheatError::SuspiciousRatio; the f64 fields are modelled as
rationals). -/
inductive AntiCheatError where
  | suspiciousRatio (ratio max_ratio : ℚ)
deriving DecidableEq

/-- Ratio anti-abuse check (models check_ratio in ratio_check.rs).  The
Rust function returns Ok in every branch; when downloaded is nonzero and
uploaded / downloaded exceeds max_ratio it only emits a warning log.  The
first component records whether that warning fired; the second is the
returned Result.  The f64 quotient is modelled as the exact rational
quotient. -/
def check_ratio (user_id torrent_id : Nat) (uploaded downloaded : Nat)
    (max_ratio : ℚ) : Bool × Except AntiCheatError Unit :=
  if downloaded = 0 then (false, .ok ())
  else (decide ((uploaded : ℚ) / (downloaded : ℚ) > max_ratio), .ok ())

/-- Log operations (models WalOperation in wal/wal.rs). -/
inductive WalOperation where
  | addTorrent (id : Nat) (info_hash : Bytes) (freeleech : Bool)
  | removeTorrent (info_hash : Bytes)
  | addUser (id : Nat) (passkey : Bytes) (userClass : Nat)
  | removeUser (passkey : Bytes)
deriving DecidableEq

/-- Format one log line, fields separated by the pipe byte 124
(models WalOperation::to_string). -/
def WalOperation.to_string : WalOperation → Bytes
  | .addTorrent id info_hash freeleech =>
      strB "ADD_TORRENT" ++ 124 :: natBytes id ++ 124 :: hexEnc info_hash ++
        124 :: (if freeleech then [49] else [48])
  | .removeTorrent info_hash => strB "REMOVE_TORRENT" ++ 124 :: hexEnc info_hash
  | .addUser id passkey userClass =>
      strB "ADD_USER" ++ 124 :: natBytes id ++ 124 :: hexEnc passkey ++
        124 :: natBytes userClass
  | .removeUser passkey => strB "REMOVE_USER" ++ 124 :: hexEnc passkey

/-- Split a line at every pipe byte (models line.split on the pipe
character; the result is never empty). -/
def splitPipe : Bytes → List Bytes
  | [] => [[]]
  | b :: rest =>
    if b = 124 then [] :: splitPipe rest
    else
      match splitPipe rest with
      | [] => [[b]]
      | h :: t => (b :: h) :: t

/-- Parse one log line (models WalOperation::from_string): dispatch on the
first pipe-separated field, check the arity, parse ids as u32, hashes and
passkeys as hex of the exact length, the user class as u8; the freeleech
field is the comparison with the literal 1.  Any failure is None. -/
def WalOperation.from_string (line : Bytes) : Option WalOperation :=
  let parts := splitPipe line
  match parts.head? with
  | none => none
  | some tag =>
    if tag = strB "ADD_TORRENT" then
      match parts with
      | [_, idB, hashB, flB] => do
        let id ← parseUNat (2 ^ 32) idB
        let hash ← hexDec hashB
        if hash.length = 20 then some (.addTorrent id hash (flB == [49]))
        else none
      | _ => none
    else if tag = strB "REMOVE_TORRENT" then
      match parts with
      | [_, hashB] => do
        let hash ← hexDec hashB
        if hash.length = 20 then some (.removeTorrent hash) else none
      | _ => none
    else if tag = strB "ADD_USER" then
      match parts with
      | [_, idB, pkB, clB] => do
        let id ← parseUNat (2 ^ 32) idB
        let pk ← hexDec pkB
        if pk.length = 32 then do
          let cl ← parseUNat 256 clB
          some (.addUser id pk cl)
        else none
      | _ => none
    else if tag = strB "REMOVE_USER" then
      match parts with
      | [_, pkB] => do
        let pk ← hexDec pkB
        if pk.length = 32 then some (.removeUser pk) else none
      | _ => none
    else none

/-- ASCII whitespace test used by trimming (str::trim also strips other
Unicode whitespace, which never occurs in log lines). -/
def isWsp (b : Nat) : Bool := b == 32 || b == 9 || b == 10 || b == 13

/-- Trim whitespace from both ends of a line (models str::trim). -/
def trimB (bs : Bytes) : Bytes :=
  ((bs.dropWhile isWsp).reverse.dropWhile isWsp).reverse

/-- Replay a list of log lines (models Wal::replay on the lines of the
file): each line is trimmed, empty lines are skipped, lines that fail to
parse are skipped with a warning, parsed operations are returned in
order. -/
def replay : List Bytes → List WalOperation
  | [] => []
  | l :: ls =>
    let t := trimB l
    if t = [] then replay ls
    else
      match WalOperation.from_string t with
      | some op => op :: replay ls
      | none => replay ls

/-- Percent-decoding of announce byte fields (models url_decode in
utils/hex.rs): a percent byte consumes the next two characters and parses
them with u8::from_str_radix in base 16, a plus becomes the space byte 32,
and any other character is pushed as its code point truncated to u8. -/
def parseHexDigits : List Char → Option Nat :=
  go 0
where
  /-- Accumulate base-16 digits with the u8 overflow check of
  from_str_radix. -/
  go (acc : Nat) : List Char → Option Nat
    | [] => some acc
    | c :: rest =>
      match hexVal c.toNat with
      | none => none
      | some v =>
        let a := acc * 16 + v
        if a > 255 then none else go a rest

/-- Models u8::from_str_radix with radix 16 on a character list: an
optional leading plus sign (a lone sign or a minus sign on an unsigned
type is an error), then one or more base-16 digits with overflow check. -/
def parseByte16 : List Char → Option Nat
  | [] => none
  | c :: rest =>
    if c = '+' then (if rest = [] then none else parseHexDigits rest)
    else if c = '-' then none
    else parseHexDigits (c :: rest)

/-- Models url_decode in utils/hex.rs. -/
def url_decode : List Char → Option (List Nat)
  | [] => some []
  | c :: rest =>
    if c = '%' then
      match rest with
      | [] => none
      | [_] => none
      | h1 :: h2 :: rest2 =>
        match parseByte16 [h1, h2] with
        | none => none
        | some b => (url_decode rest2).map (fun t => b :: t)
    else if c = '+' then (url_decode rest).map (fun t => 32 :: t)
    else (url_decode rest).map (fun t => (c.toNat % 256) :: t)

/-- The port blacklist of validate_port in validation/params.rs. -/
def BLACKLISTED_PORTS : List Nat := [8080, 8081, 1214, 3389, 4662, 6346, 6347, 6699]

/-- Port validation (models AnnounceParams::validate_port; the input is a
u16, so callers establish port < 65536): reject 0, reject blacklisted
ports, accept the rest. -/
def validate_port (port : Nat) : Except String Nat :=
  if port = 0 then .error "Port must be between 1 and 65535"
  else if port ∈ BLACKLISTED_PORTS then .error "Port is blacklisted"
  else .ok port

/-! Predicates and comparison definitions used by the claim statements. -/

/-- All peers stored in any swarm of the registry. -/
def allPeers (s : PeerStore) : List Peer :=
  s.peers.flatMap (fun e => e.2.map Prod.snd)

/-- Distinct-or-not list of the IPs of the peers of one user on one
torrent, read off the swarm maps (the spec-side description the user-ip
index is compared against). -/
def ipsOf (s : PeerStore) (u t : Nat) : List IpAddr :=
  ((allPeers s).filter (fun p => p.user_id = u ∧ p.torrent_id = t)).map Peer.ip

/-- The user-ip index invariant claimed in the spec: every stored entry
holds exactly the set of IPs of the peers of that user on that torrent,
entries are nonempty, and an entry exists whenever such a peer exists. -/
def UserIpAgrees (s : PeerStore) : Prop :=
  (∀ e ∈ s.user_ips,
    (∀ ip ∈ e.2, ip ∈ ipsOf s e.1.1 e.1.2) ∧
      ∀ ip ∈ ipsOf s e.1.1 e.1.2, ip ∈ e.2) ∧
  (∀ e ∈ s.user_ips, ipsOf s e.1.1 e.1.2 ≠ []) ∧
  (∀ p ∈ allPeers s, (lookupA s.user_ips (p.user_id, p.torrent_id)).isSome = true)

/-- Structural well-formedness the store operations maintain for the
user-ip index: keys are unique and each stored IP list is duplicate
free. -/
def UserIpsWF (s : PeerStore) : Prop :=
  (s.user_ips.map Prod.fst).Nodup ∧ ∀ e ∈ s.user_ips, e.2.Nodup

/-- Structural well-formedness of the swarm maps: every peer is stored
under its own peer id (add_peer and update_peer are only ever called with
the key taken from the stored value). -/
def StoreWF (s : PeerStore) : Prop :=
  ∀ e ∈ s.peers, ∀ pe ∈ e.2, pe.2.peer_id = pe.1

/-- Compact v4 payload as the spec describes it: 4 address octets and 2
big-endian port octets for each v4 peer, in list order, wrong-family peers
skipped. -/
def compactV4Payload (peers : List Peer) : Bytes :=
  (peers.filter (fun p => p.ip.isV4)).flatMap
    (fun p => p.ip.octets ++ portBytes p.port)

/-- Compact v6 payload as the spec describes it: 16 address octets and 2
port octets per v6 peer. -/
def compactV6Payload (peers : List Peer) : Bytes :=
  (peers.filter (fun p => p.ip.isV6)).flatMap
    (fun p => p.ip.octets ++ portBytes p.port)

/-- The fixed response fields before the peer lists. -/
def respHeader (seeders leechers : Nat) : Bytes :=
  100 :: (bencodeStr "complete" ++ bencodeInt seeders ++
    bencodeStr "incomplete" ++ bencodeInt leechers ++
    bencodeStr "interval" ++ bencodeInt 1800 ++
    bencodeStr "min interval" ++ bencodeInt 900)

/-- Whether the (info_hash, peer_id) pair is registered in the store. -/
def peerRegistered (s : PeerStore) (info_hash peer_id : Bytes) : Prop :=
  ((lookupA s.peers info_hash).bind (fun pm => lookupA pm peer_id)).isSome = true

/-- Well-formed operation payloads: the byte widths the Rust types
guarantee (u32 ids, u8 class, 20-byte hashes, 32-byte passkeys). -/
def WalOperation.WF : WalOperation → Prop
  | .addTorrent id info_hash _ =>
      id < 2 ^ 32 ∧ info_hash.length = 20 ∧ ∀ b ∈ info_hash, b < 256
  | .removeTorrent info_hash =>
      info_hash.length = 20 ∧ ∀ b ∈ info_hash, b < 256
  | .addUser id passkey userClass =>
      id < 2 ^ 32 ∧ passkey.length = 32 ∧ (∀ b ∈ passkey, b < 256) ∧ userClass < 256
  | .removeUser passkey =>
      passkey.length = 32 ∧ ∀ b ∈ passkey, b < 256

/-- Well-formed input for url_decode, written from the amended claim: each
percent escape is complete and its two characters parse under
from_str_radix, that is they are two hex digits or a plus sign followed by
one hex digit. -/
def urlWf : List Char → Bool
  | [] => true
  | c :: rest =>
    if c = '%' then
      match rest with
      | [] => false
      | [_] => false
      | h1 :: h2 :: rest2 =>
        ((hexVal h1.toNat).isSome && (hexVal h2.toNat).isSome ||
          (h1 == '+') && (hexVal h2.toNat).isSome) && urlWf rest2
    else urlWf rest

/-- Decoded output for well-formed input, written from the amended claim:
XX escapes give the byte XX, plus-sign escapes give the single digit, a
bare plus gives the space byte, and any other character its code point
truncated to u8. -/
def urlSpecOut : List Char → List Nat
  | [] => []
  | c :: rest =>
    if c = '%' then
      match rest with
      | [] => []
      | [_] => []
      | h1 :: h2 :: rest2 =>
        (if h1 = '+' then (hexVal h2.toNat).getD 0
          else 16 * (hexVal h1.toNat).getD 0 + (hexVal h2.toNat).getD 0) :: urlSpecOut rest2
    else if c = '+' then 32 :: urlSpecOut rest
    else c.toNat % 256 :: urlSpecOut rest

/-! Concrete inputs for scenario evaluation, counterexamples and
witnesses. -/

/-- Info-hash of scenario S1/S2: twenty bytes 0x01. -/
def ihA : Bytes := List.replicate 20 1

/-- Peer id of peer A in scenario S1/S2: twenty bytes 0x02. -/
def pidA : Bytes := List.replicate 20 2

/-- Socket address 10.0.0.1 of peer A. -/
def ipA : IpAddr := .v4 (10 * 2 ^ 24 + 1)

/-- S1 announce parameters: started, left 1000. -/
def paramsS1 : ValidatedAnnounceParams :=
  ⟨ihA, pidA, 6881, 0, 0, 1000, some .started, 50, true⟩

/-- S2 announce parameters: completed, left 0. -/
def paramsS2 : ValidatedAnnounceParams :=
  ⟨ihA, pidA, 6881, 1048576, 1048576, 0, some .completed, 50, true⟩

/-- Extract the store from a pipeline result, the empty store on error. -/
def stateAfter (r : Except String (PeerStore × Bytes)) : PeerStore :=
  match r with
  | .ok p => p.1
  | .error _ => PeerStore.empty

/-- Registry state after the S1 announce of peer A. -/
def storeS1 : PeerStore :=
  stateAfter (announce_core PeerStore.empty id 7 1 paramsS1 ipA "UA" 1000)

/-- Registry state after continuing with the S2 announce of peer A. -/
def storeS2 : PeerStore :=
  stateAfter (announce_core storeS1 id 7 1 paramsS2 ipA "UA" 1900)

/-- A user with two peers on the same torrent from the same IP: peer A. -/
def dupPeerA : Peer := Peer.new 1 1 (List.replicate 20 2) (.v4 3232235777) 6881 0 0 1000 100 "c"

/-- The second peer of the same user with the same IP. -/
def dupPeerB : Peer := Peer.new 1 1 (List.replicate 20 3) (.v4 3232235777) 6882 0 0 500 100 "c"

/-- Store holding both duplicate-IP peers. -/
def dupStore : PeerStore :=
  add_peer (add_peer PeerStore.empty ihA dupPeerA) ihA dupPeerB

/-- Result of removing peer A from the duplicate-IP store. -/
def dupAfterRemove : PeerStore :=
  match remove_peer dupStore ihA (List.replicate 20 2) with
  | .ok s => s
  | .error _ => PeerStore.empty

/-- Source IP used in the rate limiter counterexample. -/
def cexIp : IpAddr := .v4 16909060

instance (s : PeerStore) : Decidable (UserIpAgrees s) := by
  unfold UserIpAgrees; infer_instance

instance (s : PeerStore) : Decidable (UserIpsWF s) := by
  unfold UserIpsWF; infer_instance

instance (s : PeerStore) : Decidable (StoreWF s) := by
  unfold StoreWF; infer_instance

instance (op : WalOperation) : Decidable op.WF := by
  cases op <;> (unfold WalOperation.WF; infer_instance)

instance (s : PeerStore) (info_hash peer_id : Bytes) :
    Decidable (peerRegistered s info_hash peer_id) := by
  unfold peerRegistered; infer_instance

/-! Association-list lemmas shared by several proofs. -/

theorem lookupA_insertA_self {α β : Type} [DecidableEq α]
    (m : List (α × β)) (k : α) (v : β) : lookupA (insertA m k v) k = some v := by
  induction m with
  | nil => simp [insertA, lookupA]
  | cons e rest ih =>
    obtain ⟨k1, v1⟩ := e
    by_cases h : k1 = k
    · simp [insertA, h, lookupA]
    · simp [insertA, h, lookupA, ih]

theorem lookupA_mem {α β : Type} [DecidableEq α] {m : List (α × β)} {k : α}
    {v : β} (h : lookupA m k = some v) : (k, v) ∈ m := by
  induction m with
  | nil => simp [lookupA] at h
  | cons e rest ih =>
    obtain ⟨k1, v1⟩ := e
    by_cases hk : k1 = k
    · subst hk
      simp [lookupA] at h
      simp [h]
    · simp [lookupA, hk] at h
      exact List.mem_cons_of_mem _ (ih h)

theorem lookupA_eq_none_of_not_mem {α β : Type} [DecidableEq α]
    {m : List (α × β)} {k : α} (h : k ∉ m.map Prod.fst) : lookupA m k = none := by
  induction m with
  | nil => simp [lookupA]
  | cons e rest ih =>
    obtain ⟨k1, v1⟩ := e
    have hk1 : k1 ≠ k := fun hh => h (by simp [hh])
    have h2 : k ∉ rest.map Prod.fst := fun hh => h (by simp [hh])
    simp [lookupA, hk1, ih h2]

theorem lookupA_eraseA_self {α β : Type} [DecidableEq α]
    {m : List (α × β)} (k : α) (h : (m.map Prod.fst).Nodup) :
    lookupA (eraseA m k) k = none := by
  induction m with
  | nil => simp [eraseA, lookupA]
  | cons e rest ih =>
    obtain ⟨k1, v1⟩ := e
    simp at h
    by_cases hk : k1 = k
    · subst hk
      simpa [eraseA] using
        lookupA_eq_none_of_not_mem (by simpa using h.1)
    · simp [eraseA, hk, lookupA, ih h.2]

theorem mem_setInsert_self {α : Type} [DecidableEq α] (s : List α) (x : α) :
    x ∈ setInsert s x := by
  unfold setInsert
  by_cases h : x ∈ s <;> simp [h]

/-! Claim theorems. -/

/-- C9: validate_port accepts a u16 port iff it lies in 1..=65535 and is
not blacklisted; port 0 and every blacklisted port are rejected. -/
theorem c9_port_validation :
    (∀ port : Nat, port ≤ 65535 →
      ((validate_port port).toOption = some port ↔
        1 ≤ port ∧ port ≤ 65535 ∧ port ∉ BLACKLISTED_PORTS)) ∧
    validate_port 0 = Except.error "Port must be between 1 and 65535" ∧
    ∀ bp ∈ BLACKLISTED_PORTS, validate_port bp = Except.error "Port is blacklisted" := by
  refine ⟨?_, rfl, ?_⟩
  · intro port hle
    by_cases h0 : port = 0
    · subst h0
      simp [validate_port, Except.toOption]
    · by_cases hb : port ∈ BLACKLISTED_PORTS
      · simp [validate_port, h0, hb, Except.toOption]
      · simp [validate_port, h0, hb, Except.toOption]
        omega
  · intro bp hbp
    fin_cases hbp <;> rfl

/-- Witness for C9 at port 6881. -/
theorem c9_port_validation_witness :
    (validate_port 6881).toOption = some 6881 ↔
      1 ≤ 6881 ∧ 6881 ≤ 65535 ∧ 6881 ∉ BLACKLISTED_PORTS :=
  c9_port_validation.1 6881 (by norm_num)

/-- C3 counterexample: at uploaded 2000000000, downloaded 1000000 and max
ratio 1000 the claimed failure condition holds (downloaded positive and
quotient above the maximum), yet check_ratio returns Ok, so the check
never reports a violation. -/
theorem c3_counterexample :
    (check_ratio 1 1 2000000000 1000000 1000).2 = Except.ok () ∧
      0 < (1000000 : Nat) ∧ (2000000000 : ℚ) / 1000000 > 1000 :=
  ⟨rfl, by norm_num, by norm_num⟩

/-- C3 (amended): check_ratio always returns Ok; the warning branch fires
iff downloaded is positive and the exact quotient uploaded / downloaded
exceeds max_ratio. -/
theorem c3_ratio_check (user_id torrent_id uploaded downloaded : Nat)
    (max_ratio : ℚ) :
    (check_ratio user_id torrent_id uploaded downloaded max_ratio).2 = Except.ok () ∧
    ((check_ratio user_id torrent_id uploaded downloaded max_ratio).1 = true ↔
      0 < downloaded ∧ (uploaded : ℚ) / (downloaded : ℚ) > max_ratio) := by
  by_cases hd : downloaded = 0
  · subst hd
    simp [check_ratio]
  · simp [check_ratio, hd, Nat.pos_of_ne_zero hd]

/-- C10 counterexample: the three characters percent, plus, five decode
successfully to the byte 5 although the plus sign is not a hex digit,
because u8::from_str_radix accepts a leading plus sign; the claim predicts
an error for this escape. -/
theorem c10_counterexample :
    url_decode ['%', '+', '5'] = some [5] ∧ hexVal ('+'.toNat) = none := by
  decide

/-- C1: evaluating the announce pipeline on scenario S1 followed by S2
(the same peer id announces completed with left 0): the registry stats
stay (0, 1) although the stored peer now carries the seeder flag, because
the existing-peer lookup excludes the requester itself, so the re-announce
takes the add_peer path, which never moves a count between the counters;
the spec expects (1, 0). -/
theorem c1_seed_completion_eval :
    get_stats storeS2 ihA = (0, 1) ∧
    (lookupA ((lookupA storeS2.peers ihA).getD []) pidA).map Peer.is_seeder =
      some true ∧
    get_stats storeS2 ihA ≠ (1, 0) := by
  decide

/-- C2 counterexample: two peers of one user on one torrent share an IP;
removing one of them succeeds and deletes the shared IP together with the
now empty index entry although the other peer still holds that IP, so the
claimed set-equality invariant fails immediately after a remove operation,
having held before it. -/
theorem c2_counterexample :
    UserIpAgrees dupStore ∧
    (remove_peer dupStore ihA (List.replicate 20 2)).toOption.isSome = true ∧
    ¬ UserIpAgrees dupAfterRemove := by
  decide

/-- C2 (amended): the user-ip index is maintained procedurally rather than
holding the claimed set equality: add_peer and update_peer insert the
affected peer's IP into its (user, torrent) entry; remove_peer (whose
per-peer maintenance the reaper repeats verbatim) deletes the removed
peer's IP from the entry even when another peer of the same user still
uses that IP, dropping the entry when the set becomes empty. -/
theorem c2_user_ip_index :
    (∀ (s : PeerStore) (info_hash : Bytes) (p : Peer),
      p.ip ∈
        ((lookupA (add_peer s info_hash p).user_ips (p.user_id, p.torrent_id)).getD [])) ∧
    (∀ (s : PeerStore) (info_hash peer_id : Bytes) (p : Peer) (s2 : PeerStore),
      update_peer s info_hash peer_id p = .ok s2 →
      p.ip ∈ ((lookupA s2.user_ips (p.user_id, p.torrent_id)).getD [])) ∧
    (∀ (s : PeerStore) (info_hash peer_id : Bytes) (pm : List (Bytes × Peer))
      (p : Peer) (s2 : PeerStore),
      UserIpsWF s →
      lookupA s.peers info_hash = some pm →
      lookupA pm peer_id = some p →
      remove_peer s info_hash peer_id = .ok s2 →
      p.ip ∉ ((lookupA s2.user_ips (p.user_id, p.torrent_id)).getD [])) := by
  refine ⟨?_, ?_, ?_⟩
  · intro s info_hash p
    simp [add_peer, lookupA_insertA_self, mem_setInsert_self]
  · intro s info_hash peer_id p s2 h
    unfold update_peer at h
    cases hp : lookupA s.peers info_hash with
    | none => rw [hp] at h; exact absurd h (by simp)
    | some pm =>
      rw [hp] at h
      cases hs : lookupA s.stats info_hash with
      | none => rw [hs] at h; exact absurd h (by simp)
      | some st =>
        rw [hs] at h
        simp only [Except.ok.injEq] at h
        subst h
        simp [lookupA_insertA_self, mem_setInsert_self]
  · intro s info_hash peer_id pm p s2 hwf hp hpid hrm
    cases hs : lookupA s.stats info_hash with
    | none =>
      simp only [remove_peer, hp, hs] at hrm
      exact absurd hrm (by simp)
    | some st =>
      simp only [remove_peer, hp, hs, hpid, Except.ok.injEq] at hrm
      subst hrm
      cases hu : lookupA s.user_ips (p.user_id, p.torrent_id) with
      | none =>
        simp only [hu]
        simp [hu]
      | some ips =>
        have hnd : ips.Nodup := hwf.2 _ (lookupA_mem hu)
        by_cases he : ips.erase p.ip = []
        · simp only [hu, he]
          simp [lookupA_eraseA_self _ hwf.1, he, hu]
        · simp only [hu, he]
          simp [hu, he, lookupA_insertA_self, hnd.not_mem_erase]

/-- Witness for C2 at the duplicate-IP store: the shared IP is gone from
the index entry of user 1 on torrent 1 after removing peer A. -/
theorem c2_user_ip_index_witness :
    dupPeerA.ip ∉
      ((lookupA dupAfterRemove.user_ips (dupPeerA.user_id, dupPeerA.torrent_id)).getD []) :=
  c2_user_ip_index.2.2 dupStore ihA (List.replicate 20 2)
    [(List.replicate 20 2, dupPeerA), (List.replicate 20 3, dupPeerB)]
    dupPeerA dupAfterRemove (by decide) (by decide) (by decide) (by rfl)

/-- C5: the peer list returned by get_peers never contains a peer whose
peer id equals the excluded requester id (given that peers are stored
under their own peer ids, which every call site guarantees, and that the
shuffle permutes its input), and the list is empty for an absent swarm. -/
theorem c5_exclude_self (s : PeerStore) (shuffle : List Peer → List Peer)
    (info_hash : Bytes) (num_want : Nat) (exclude_peer_id : Bytes)
    (hsh : ∀ l : List Peer, List.Perm (shuffle l) l)
    (hwf : StoreWF s) :
    (∀ p ∈ get_peers s shuffle info_hash num_want exclude_peer_id,
      p.peer_id ≠ exclude_peer_id) ∧
    (lookupA s.peers info_hash = none →
      get_peers s shuffle info_hash num_want exclude_peer_id = []) := by
  constructor
  · intro p hp
    unfold get_peers at hp
    cases hlk : lookupA s.peers info_hash with
    | none => rw [hlk] at hp; simp at hp
    | some pm =>
      rw [hlk] at hp
      have hp2 : p ∈ shuffle ((pm.filter (fun e => e.1 ≠ exclude_peer_id)).map Prod.snd) :=
        List.take_subset _ _ hp
      have hp3 : p ∈ (pm.filter (fun e => e.1 ≠ exclude_peer_id)).map Prod.snd :=
        ((hsh _).mem_iff).1 hp2
      obtain ⟨e, he, hpe⟩ := List.mem_map.1 hp3
      have hef := List.mem_filter.1 he
      have hne : e.1 ≠ exclude_peer_id := by simpa using hef.2
      have hid := hwf _ (lookupA_mem hlk) _ hef.1
      rw [← hpe, hid]
      exact hne
  · intro h
    unfold get_peers
    rw [h]

/-- Witness for C5: in the duplicate-IP store the query excluding peer A
returns peer B, whose peer id indeed differs from the excluded one. -/
theorem c5_exclude_self_witness :
    dupPeerB.peer_id ≠ List.replicate 20 2 :=
  (c5_exclude_self dupStore id ihA 50 (List.replicate 20 2)
    (fun l => List.Perm.refl l) (by decide)).1 dupPeerB (by decide)

/-- C8: an announce with event stopped for an (info_hash, peer_id) pair
that is not registered leaves the store unchanged and still returns a
successful response carrying an empty peer list and the current stats. -/
theorem c8_stopped_unregistered (s : PeerStore) (shuffle : List Peer → List Peer)
    (user_id torrent_id : Nat) (v : ValidatedAnnounceParams) (ip : IpAddr)
    (user_agent : String) (now : Int)
    (hev : v.event = some .stopped)
    (hreg : ¬ peerRegistered s v.info_hash v.peer_id) :
    announce_core s shuffle user_id torrent_id v ip user_agent now =
      .ok (s, build_announce_response [] (get_stats s v.info_hash).1
        (get_stats s v.info_hash).2 v.compact) := by
  have hs2 : (match remove_peer s v.info_hash v.peer_id with
      | .ok s2 => s2
      | .error _ => s) = s := by
    cases hp : lookupA s.peers v.info_hash with
    | none => simp [remove_peer, hp]
    | some pm =>
      cases hpid : lookupA pm v.peer_id with
      | some q =>
        exact absurd (by unfold peerRegistered; rw [hp]; simp [hpid]) hreg
      | none =>
        cases hs : lookupA s.stats v.info_hash with
        | none => simp [remove_peer, hp, hs]
        | some st => simp [remove_peer, hp, hs, hpid]
  unfold announce_core
  rw [hev]
  simp [hs2]

/-- Witness for C8: a stopped announce for an empty registry. -/
theorem c8_stopped_unregistered_witness :
    announce_core PeerStore.empty id 7 1
      ⟨ihA, pidA, 6881, 0, 0, 1000, some .stopped, 50, true⟩ ipA "UA" 1000 =
      .ok (PeerStore.empty, build_announce_response []
        (get_stats PeerStore.empty ihA).1 (get_stats PeerStore.empty ihA).2 true) :=
  c8_stopped_unregistered PeerStore.empty id 7 1
    ⟨ihA, pidA, 6881, 0, 0, 1000, some .stopped, 50, true⟩ ipA "UA" 1000
    rfl (by decide)

theorem octets_length_v4 {ip : IpAddr} (h : ip.isV4 = true) :
    ip.octets.length = 4 := by
  cases ip with
  | v4 a => simp [IpAddr.octets]
  | v6 a => simp [IpAddr.isV4] at h

theorem octets_length_v6 {ip : IpAddr} (h : ip.isV6 = true) :
    ip.octets.length = 16 := by
  cases ip with
  | v4 a => simp [IpAddr.isV6] at h
  | v6 a => simp [IpAddr.octets]

theorem peerEntry_length_v4 (l : List Peer) (h : ∀ p ∈ l, p.ip.isV4 = true) :
    (l.flatMap (fun p => p.ip.octets ++ portBytes p.port)).length = 6 * l.length := by
  induction l with
  | nil => simp
  | cons p rest ih =>
    have hp := h p (List.mem_cons_self p rest)
    have h6 : (p.ip.octets ++ portBytes p.port).length = 6 := by
      rw [List.length_append, octets_length_v4 hp]
      rfl
    rw [List.flatMap_cons, List.length_append, h6,
      ih (fun q hq => h q (List.mem_cons_of_mem p hq)), List.length_cons]
    ring

theorem peerEntry_length_v6 (l : List Peer) (h : ∀ p ∈ l, p.ip.isV6 = true) :
    (l.flatMap (fun p => p.ip.octets ++ portBytes p.port)).length = 18 * l.length := by
  induction l with
  | nil => simp
  | cons p rest ih =>
    have hp := h p (List.mem_cons_self p rest)
    have h18 : (p.ip.octets ++ portBytes p.port).length = 18 := by
      rw [List.length_append, octets_length_v6 hp]
      rfl
    rw [List.flatMap_cons, List.length_append, h18,
      ih (fun q hq => h q (List.mem_cons_of_mem p hq)), List.length_cons]
    ring

theorem encode_compact_eq_bencode (peers : List Peer) :
    encode_compact_peers peers = bencodeBytes (compactV4Payload peers) := by
  unfold encode_compact_peers compactV4Payload bencodeBytes
  by_cases h : (peers.filter (fun p => p.ip.isV4)).length = 0
  · rw [List.length_eq_zero] at h
    simp [h, natBytes, strB]
  · have hlen := peerEntry_length_v4 (peers.filter (fun p => p.ip.isV4))
      (fun p hp => (List.mem_filter.1 hp).2)
    simp [h, hlen, Nat.mul_comm]

theorem encode_compact6_eq_bencode (peers : List Peer) :
    encode_compact_peers_ipv6 peers = bencodeBytes (compactV6Payload peers) := by
  unfold encode_compact_peers_ipv6 compactV6Payload bencodeBytes
  by_cases h : (peers.filter (fun p => p.ip.isV6)).length = 0
  · rw [List.length_eq_zero] at h
    simp [h, natBytes, strB]
  · have hlen := peerEntry_length_v6 (peers.filter (fun p => p.ip.isV6))
      (fun p hp => (List.mem_filter.1 hp).2)
    simp [h, hlen, Nat.mul_comm]

/-- C7: in compact mode the response is the fixed header followed by the
key peers with the byte-string encoding of the v4 payload (4 network-order
address octets and 2 big-endian port octets per v4 peer, in order,
wrong-family peers skipped), then the key peers6 with the encoding of the
v6 payload (16 plus 2 octets per v6 peer); the payloads measure exactly 6
and 18 bytes per peer of the respective family, and a family with no
peers encodes as the byte string 0: . -/
theorem c7_compact_encoding (peers : List Peer) (seeders leechers : Nat) :
    build_announce_response peers seeders leechers true =
      respHeader seeders leechers ++ bencodeStr "peers" ++
        bencodeBytes (compactV4Payload peers) ++ bencodeStr "peers6" ++
        bencodeBytes (compactV6Payload peers) ++ [101] ∧
    (compactV4Payload peers).length =
      6 * (peers.filter (fun p => p.ip.isV4)).length ∧
    (compactV6Payload peers).length =
      18 * (peers.filter (fun p => p.ip.isV6)).length ∧
    (peers.filter (fun p => p.ip.isV4) = [] →
      encode_compact_peers peers = strB "0:") ∧
    (peers.filter (fun p => p.ip.isV6) = [] →
      encode_compact_peers_ipv6 peers = strB "0:") := by
  refine ⟨?_, ?_, ?_, ?_, ?_⟩
  · rw [build_announce_response, respHeader, encode_compact_eq_bencode,
      encode_compact6_eq_bencode]
    simp [List.append_assoc]
  · exact peerEntry_length_v4 _ (fun p hp => (List.mem_filter.1 hp).2)
  · exact peerEntry_length_v6 _ (fun p hp => (List.mem_filter.1 hp).2)
  · intro h
    unfold encode_compact_peers
    simp [h]
  · intro h
    unfold encode_compact_peers_ipv6
    simp [h]

/-- Witness for C7 at a one-v4-peer list: the v4 family is nonempty and
the v6 family empty, so peers6 collapses to the empty byte string. -/
theorem c7_compact_encoding_witness :
    encode_compact_peers_ipv6 [dupPeerA] = strB "0:" :=
  (c7_compact_encoding [dupPeerA] 0 1).2.2.2.2 (by decide)

/-! Lemmas for the log round trip. -/

theorem natBytes_mem_bounds {n b : Nat} (h : b ∈ natBytes n) :
    48 ≤ b ∧ b ≤ 57 := by
  unfold natBytes at h
  by_cases h0 : n = 0
  · simp [h0] at h
    omega
  · rw [if_neg h0, List.mem_map] at h
    obtain ⟨d, hd, rfl⟩ := h
    have : d < 10 :=
      Nat.digits_lt_base (by norm_num) (List.mem_reverse.1 hd)
    omega

theorem natBytes_ne_nil (n : Nat) : natBytes n ≠ [] := by
  unfold natBytes
  by_cases h0 : n = 0
  · simp [h0]
  · simp [h0, Nat.digits_ne_nil_iff_ne_zero]

theorem foldl_digits_map (ds : List Nat) (a : Nat) :
    ((ds.reverse).map (fun d => 48 + d)).foldl (fun acc b => acc * 10 + (b - 48)) a =
      Nat.ofDigits 10 ds + a * 10 ^ ds.length := by
  induction ds generalizing a with
  | nil => simp
  | cons d ds ih =>
    rw [List.reverse_cons, List.map_append, List.foldl_append, ih]
    simp [Nat.ofDigits_cons, pow_succ]
    ring

theorem parseUNat_natBytes {lim n : Nat} (h : n < lim) :
    parseUNat lim (natBytes n) = some n := by
  have hhead : ¬ (natBytes n).head? = some 43 := by
    cases hnb : natBytes n with
    | nil => simp
    | cons b rest =>
      have hb : b ∈ natBytes n := by
        rw [hnb]; exact List.mem_cons_self b rest
      have := natBytes_mem_bounds hb
      simp
      omega
  have hall : (natBytes n).all (fun b => decide (48 ≤ b ∧ b ≤ 57)) = true := by
    rw [List.all_eq_true]
    intro b hb
    simpa using natBytes_mem_bounds hb
  have hv : (natBytes n).foldl (fun acc b => acc * 10 + (b - 48)) 0 = n := by
    by_cases h0 : n = 0
    · simp [h0, natBytes]
    · unfold natBytes
      rw [if_neg h0, foldl_digits_map, Nat.ofDigits_digits]
      simp
  simp only [parseUNat, if_neg hhead, if_neg (natBytes_ne_nil n), hall,
    if_pos rfl, hv, if_pos h]
  simp

theorem hexVal_hexChar {v : Nat} (h : v < 16) : hexVal (hexChar v) = some v := by
  unfold hexVal hexChar
  by_cases h10 : v < 10
  · rw [if_pos h10, if_pos (by omega)]
    simp
  · rw [if_neg h10, if_neg (by omega), if_pos (by omega)]
    simp

theorem hexDec_hexEnc {bs : Bytes} (h : ∀ b ∈ bs, b < 256) :
    hexDec (hexEnc bs) = some bs := by
  induction bs with
  | nil => simp [hexEnc, hexDec]
  | cons b rest ih =>
    have hb := h b (List.mem_cons_self b rest)
    have hdiv : b / 16 < 16 := by omega
    have hmod : b % 16 < 16 := Nat.mod_lt _ (by norm_num)
    have hrest := ih (fun c hc => h c (List.mem_cons_of_mem b hc))
    simp only [hexEnc, List.flatMap_cons, List.cons_append, List.nil_append]
    simp only [hexEnc] at hrest
    rw [hexDec]
    rw [hexVal_hexChar hdiv, hexVal_hexChar hmod, hrest]
    simp [Nat.div_add_mod]

theorem hexChar_le {v : Nat} (h : v < 16) : hexChar v ≤ 102 := by
  unfold hexChar
  by_cases h10 : v < 10 <;> simp [h10] <;> omega

theorem hexEnc_ne_pipe {bs : Bytes} (h : ∀ b ∈ bs, b < 256) :
    ∀ c ∈ hexEnc bs, c ≠ 124 := by
  intro c hc
  unfold hexEnc at hc
  rw [List.mem_flatMap] at hc
  obtain ⟨b, hb, hcb⟩ := hc
  have hbb := h b hb
  have hdiv : b / 16 < 16 := by omega
  have hmod : b % 16 < 16 := Nat.mod_lt _ (by norm_num)
  simp at hcb
  cases hcb with
  | inl hh => have := hexChar_le hdiv; omega
  | inr hh => have := hexChar_le hmod; omega

theorem natBytes_ne_pipe (n : Nat) : ∀ b ∈ natBytes n, b ≠ 124 := by
  intro b hb
  have := natBytes_mem_bounds hb
  omega

theorem splitPipe_no_pipe {xs : Bytes} (h : ∀ b ∈ xs, b ≠ 124) :
    splitPipe xs = [xs] := by
  induction xs with
  | nil => rfl
  | cons b rest ih =>
    have hb := h b (List.mem_cons_self b rest)
    rw [splitPipe, if_neg hb, ih (fun c hc => h c (List.mem_cons_of_mem b hc))]

theorem splitPipe_append {xs ys : Bytes} (h : ∀ b ∈ xs, b ≠ 124) :
    splitPipe (xs ++ 124 :: ys) = xs :: splitPipe ys := by
  induction xs with
  | nil =>
    simp [splitPipe]
  | cons b rest ih =>
    have hb := h b (List.mem_cons_self b rest)
    rw [List.cons_append, splitPipe, if_neg hb,
      ih (fun c hc => h c (List.mem_cons_of_mem b hc))]

/-- C6: formatting a well-formed log operation and parsing it back yields
the operation (the well-formedness being the byte widths the Rust types
enforce), and replay drops any line that fails to parse while keeping the
lines around it in order. -/
theorem c6_wal_roundtrip :
    (∀ op : WalOperation, op.WF →
      WalOperation.from_string (WalOperation.to_string op) = some op) ∧
    (∀ (pre post : List Bytes) (bad : Bytes),
      WalOperation.from_string (trimB bad) = none →
      replay (pre ++ bad :: post) = replay pre ++ replay post) := by
  constructor
  · intro op hwf
    cases op with
    | addTorrent id info_hash freeleech =>
      obtain ⟨hid, hlen, hbytes⟩ := hwf
      have hid4 : id < 4294967296 := by
        have h32 : (2 : Nat) ^ 32 = 4294967296 := by norm_num
        omega
      have hA : ∀ b ∈ strB "ADD_TORRENT", b ≠ 124 := by decide
      cases freeleech with
      | true =>
        have hD : ∀ b ∈ ([49] : Bytes), b ≠ 124 := by decide
        have hsplit : splitPipe (WalOperation.to_string (.addTorrent id info_hash true)) =
            [strB "ADD_TORRENT", natBytes id, hexEnc info_hash, [49]] := by
          rw [WalOperation.to_string,
            show (if (true : Bool) then ([49] : Bytes) else [48]) = [49] from rfl]
          simp only [List.append_assoc, List.cons_append]
          rw [splitPipe_append hA, splitPipe_append (natBytes_ne_pipe id),
            splitPipe_append (hexEnc_ne_pipe hbytes), splitPipe_no_pipe hD]
        rw [WalOperation.from_string, hsplit]
        simp [parseUNat_natBytes hid4, hexDec_hexEnc hbytes, hlen]
      | false =>
        have hD : ∀ b ∈ ([48] : Bytes), b ≠ 124 := by decide
        have hsplit : splitPipe (WalOperation.to_string (.addTorrent id info_hash false)) =
            [strB "ADD_TORRENT", natBytes id, hexEnc info_hash, [48]] := by
          rw [WalOperation.to_string,
            show (if (false : Bool) then ([49] : Bytes) else [48]) = [48] from rfl]
          simp only [List.append_assoc, List.cons_append]
          rw [splitPipe_append hA, splitPipe_append (natBytes_ne_pipe id),
            splitPipe_append (hexEnc_ne_pipe hbytes), splitPipe_no_pipe hD]
        rw [WalOperation.from_string, hsplit]
        simp [parseUNat_natBytes hid4, hexDec_hexEnc hbytes, hlen]
    | removeTorrent info_hash =>
      obtain ⟨hlen, hbytes⟩ := hwf
      have hA : ∀ b ∈ strB "REMOVE_TORRENT", b ≠ 124 := by decide
      have e1 : strB "REMOVE_TORRENT" ≠ strB "ADD_TORRENT" := by decide
      have hsplit : splitPipe (WalOperation.to_string (.removeTorrent info_hash)) =
          [strB "REMOVE_TORRENT", hexEnc info_hash] := by
        rw [WalOperation.to_string]
        rw [splitPipe_append hA, splitPipe_no_pipe (hexEnc_ne_pipe hbytes)]
      rw [WalOperation.from_string, hsplit]
      simp [e1, hexDec_hexEnc hbytes, hlen]
    | addUser id passkey userClass =>
      obtain ⟨hid, hlen, hbytes, hcl⟩ := hwf
      have hid4 : id < 4294967296 := by
        have h32 : (2 : Nat) ^ 32 = 4294967296 := by norm_num
        omega
      have hA : ∀ b ∈ strB "ADD_USER", b ≠ 124 := by decide
      have e1 : strB "ADD_USER" ≠ strB "ADD_TORRENT" := by decide
      have e2 : strB "ADD_USER" ≠ strB "REMOVE_TORRENT" := by decide
      have hsplit : splitPipe (WalOperation.to_string (.addUser id passkey userClass)) =
          [strB "ADD_USER", natBytes id, hexEnc passkey, natBytes userClass] := by
        rw [WalOperation.to_string]
        simp only [List.append_assoc, List.cons_append]
        rw [splitPipe_append hA, splitPipe_append (natBytes_ne_pipe id),
          splitPipe_append (hexEnc_ne_pipe hbytes),
          splitPipe_no_pipe (natBytes_ne_pipe userClass)]
      rw [WalOperation.from_string, hsplit]
      simp [e1, e2, parseUNat_natBytes hid4, hexDec_hexEnc hbytes, hlen,
        parseUNat_natBytes hcl]
    | removeUser passkey =>
      obtain ⟨hlen, hbytes⟩ := hwf
      have hA : ∀ b ∈ strB "REMOVE_USER", b ≠ 124 := by decide
      have e1 : strB "REMOVE_USER" ≠ strB "ADD_TORRENT" := by decide
      have e2 : strB "REMOVE_USER" ≠ strB "REMOVE_TORRENT" := by decide
      have e3 : strB "REMOVE_USER" ≠ strB "ADD_USER" := by decide
      have hsplit : splitPipe (WalOperation.to_string (.removeUser passkey)) =
          [strB "REMOVE_USER", hexEnc passkey] := by
        rw [WalOperation.to_string]
        rw [splitPipe_append hA, splitPipe_no_pipe (hexEnc_ne_pipe hbytes)]
      rw [WalOperation.from_string, hsplit]
      simp [e1, e2, e3, hexDec_hexEnc hbytes, hlen]
  · intro pre post bad hbad
    induction pre with
    | nil =>
      simp only [List.nil_append, replay]
      by_cases ht : trimB bad = []
      · simp [ht]
      · simp [ht, hbad]
    | cons l rest ih =>
      simp only [List.cons_append, replay]
      by_cases ht : trimB l = []
      · simp [ht, ih]
      · cases hfs : WalOperation.from_string (trimB l) with
        | none => simp [ht, hfs, ih]
        | some op => simp [ht, hfs, ih]

/-- Witness for C6: a concrete round trip and a replay that skips a
malformed middle line. -/
theorem c6_wal_roundtrip_witness :
    WalOperation.from_string
      (WalOperation.to_string (.addTorrent 123 (List.replicate 20 1) true)) =
      some (.addTorrent 123 (List.replicate 20 1) true) ∧
    replay [WalOperation.to_string (.addUser 7 (List.replicate 32 2) 1),
        strB "INVALID_OP|data",
        WalOperation.to_string (.removeUser (List.replicate 32 2))] =
      replay [WalOperation.to_string (.addUser 7 (List.replicate 32 2) 1)] ++
        replay [WalOperation.to_string (.removeUser (List.replicate 32 2))] :=
  ⟨c6_wal_roundtrip.1 (.addTorrent 123 (List.replicate 20 1) true) (by decide),
    c6_wal_roundtrip.2 [WalOperation.to_string (.addUser 7 (List.replicate 32 2) 1)]
      [WalOperation.to_string (.removeUser (List.replicate 32 2))]
      (strB "INVALID_OP|data") (by decide)⟩

/-! Lemmas for the rate limiter. -/

theorem check_inc_fresh {rl : RateLimiter} {ip : IpAddr} {t : Int}
    (hl : lookupA rl.requests ip = none) :
    check_and_increment rl ip t =
      (decide (1 ≤ rl.max_requests_per_minute),
        ⟨insertA rl.requests ip (1, t), rl.max_requests_per_minute⟩) := by
  unfold check_and_increment
  rw [hl]
  simp only [Option.getD_none]
  rw [if_neg (by omega)]
  norm_num

theorem check_inc_window {rl : RateLimiter} {ip : IpAddr} {c : Nat} {w t : Int}
    (hl : lookupA rl.requests ip = some (c, w)) (ht : t - w < 60) :
    check_and_increment rl ip t =
      (decide ((c + 1) % 2 ^ 32 ≤ rl.max_requests_per_minute),
        ⟨insertA rl.requests ip ((c + 1) % 2 ^ 32, w), rl.max_requests_per_minute⟩) := by
  unfold check_and_increment
  rw [hl]
  simp only [Option.getD_some]
  rw [if_neg (by omega)]

theorem check_inc_reset {rl : RateLimiter} {ip : IpAddr} {c : Nat} {w t : Int}
    (hl : lookupA rl.requests ip = some (c, w)) (ht : t - w ≥ 60) :
    check_and_increment rl ip t =
      (true, ⟨insertA rl.requests ip (1, t), rl.max_requests_per_minute⟩) := by
  unfold check_and_increment
  rw [hl]
  simp only [Option.getD_some]
  rw [if_pos (by omega)]

theorem runCalls_window (ip : IpAddr) (w : Int) :
    ∀ (ts : List Int) (rl : RateLimiter) (c : Nat),
      lookupA rl.requests ip = some (c, w) → c < 2 ^ 32 →
      (∀ t ∈ ts, t - w < 60) →
      (runCalls rl ip ts).1 =
        (List.range ts.length).map
          (fun i => decide ((c + i + 1) % 2 ^ 32 ≤ rl.max_requests_per_minute)) ∧
      lookupA (runCalls rl ip ts).2.requests ip =
        some ((c + ts.length) % 2 ^ 32, w) ∧
      (runCalls rl ip ts).2.max_requests_per_minute = rl.max_requests_per_minute := by
  intro ts
  induction ts with
  | nil =>
    intro rl c hl hc _
    refine ⟨rfl, ?_, rfl⟩
    show lookupA rl.requests ip = some ((c + 0) % 2 ^ 32, w)
    rw [Nat.add_zero, Nat.mod_eq_of_lt hc]
    exact hl
  | cons t ts ih =>
    intro rl c hl hc hts
    have hstep := check_inc_window hl (hts t (List.mem_cons_self t ts))
    have hb : (check_and_increment rl ip t).1 =
        decide ((c + 1) % 2 ^ 32 ≤ rl.max_requests_per_minute) := by rw [hstep]
    have hs : (check_and_increment rl ip t).2 =
        ⟨insertA rl.requests ip ((c + 1) % 2 ^ 32, w), rl.max_requests_per_minute⟩ := by
      rw [hstep]
    have hlk2 : lookupA (insertA rl.requests ip ((c + 1) % 2 ^ 32, w)) ip =
        some ((c + 1) % 2 ^ 32, w) := lookupA_insertA_self _ _ _
    have hc2 : (c + 1) % 2 ^ 32 < 2 ^ 32 := Nat.mod_lt _ (by norm_num)
    obtain ⟨h1, h2, h3⟩ :=
      ih ⟨insertA rl.requests ip ((c + 1) % 2 ^ 32, w), rl.max_requests_per_minute⟩
        ((c + 1) % 2 ^ 32) hlk2 hc2
        (fun u hu => hts u (List.mem_cons_of_mem t hu))
    have hfst : (runCalls rl ip (t :: ts)).1 =
        (check_and_increment rl ip t).1 ::
          (runCalls (check_and_increment rl ip t).2 ip ts).1 := rfl
    have hsnd : (runCalls rl ip (t :: ts)).2 =
        (runCalls (check_and_increment rl ip t).2 ip ts).2 := rfl
    refine ⟨?_, ?_, ?_⟩
    · rw [hfst, hb, hs, h1, List.length_cons, List.range_succ_eq_map,
        List.map_cons, List.map_map]
      congr 1
      refine List.map_congr_left ?_
      intro i hi
      have hmod : ((c + 1) % 2 ^ 32 + i + 1) % 2 ^ 32 = (c + Nat.succ i + 1) % 2 ^ 32 := by
        rw [add_assoc, Nat.mod_add_mod]
        congr 1
        omega
      simp only [Function.comp_apply, hmod]
    · rw [hsnd, hs, h2, List.length_cons]
      have hmod : ((c + 1) % 2 ^ 32 + ts.length) % 2 ^ 32 =
          (c + (ts.length + 1)) % 2 ^ 32 := by
        rw [Nat.mod_add_mod]
        congr 1
        omega
      rw [hmod]
    · rw [hsnd, hs, h3]

theorem count_true_range (max N : Nat) :
    (((List.range N).map (fun i => decide (i + 1 ≤ max))).count true) = min N max := by
  induction N with
  | zero => simp
  | succ n ih =>
    rw [List.range_succ, List.map_append, List.count_append, ih]
    by_cases h : n + 1 ≤ max
    · simp [h]
      omega
    · simp [h]
      omega

/-- C4 (amended): because the per-IP counter is a wrapping u32, the
claimed window behavior holds for windows seeing fewer than 2 ^ 32 calls:
starting from no entry for the IP, with every later call inside the
60-second window opened by the first, the k-th call returns true iff
k is at most the maximum, hence at most max calls return true and the
(max+1)-th returns false; and a call at or past the window end returns
true and resets the bucket to count 1 at the new time. -/
theorem c4_rate_limiter :
    (∀ (max : Nat) (ip : IpAddr) (w : Int) (ts : List Int),
      (∀ t ∈ ts, w ≤ t ∧ t < w + 60) → ts.length + 1 < 2 ^ 32 →
      (runCalls (RateLimiter.new max) ip (w :: ts)).1 =
        (List.range (ts.length + 1)).map (fun i => decide (i + 1 ≤ max)) ∧
      (runCalls (RateLimiter.new max) ip (w :: ts)).1.count true ≤ max ∧
      (max < ts.length + 1 →
        ((runCalls (RateLimiter.new max) ip (w :: ts)).1)[max]? = some false)) ∧
    (∀ (rl : RateLimiter) (ip : IpAddr) (c : Nat) (w t : Int),
      lookupA rl.requests ip = some (c, w) → t - w ≥ 60 →
      check_and_increment rl ip t =
        (true, ⟨insertA rl.requests ip (1, t), rl.max_requests_per_minute⟩)) := by
  constructor
  · intro max ip w ts hts hlen
    have h32 : (2 : Nat) ^ 32 = 4294967296 := by norm_num
    have hstep := @check_inc_fresh (RateLimiter.new max) ip w rfl
    have hb : (check_and_increment (RateLimiter.new max) ip w).1 = decide (1 ≤ max) := by
      rw [hstep]
      rfl
    have hs : (check_and_increment (RateLimiter.new max) ip w).2 =
        ⟨insertA (RateLimiter.new max).requests ip (1, w), max⟩ := by
      rw [hstep]
      rfl
    have hlk2 : lookupA (insertA (RateLimiter.new max).requests ip (1, w)) ip =
        some (1, w) := lookupA_insertA_self _ _ _
    obtain ⟨h1, h2, h3⟩ :=
      runCalls_window ip w ts ⟨insertA (RateLimiter.new max).requests ip (1, w), max⟩
        1 hlk2 (by norm_num) (fun u hu => by have := hts u hu; omega)
    have hfst : (runCalls (RateLimiter.new max) ip (w :: ts)).1 =
        (check_and_increment (RateLimiter.new max) ip w).1 ::
          (runCalls (check_and_increment (RateLimiter.new max) ip w).2 ip ts).1 := rfl
    have hmain : (runCalls (RateLimiter.new max) ip (w :: ts)).1 =
        (List.range (ts.length + 1)).map (fun i => decide (i + 1 ≤ max)) := by
      rw [hfst, hb, hs, h1, List.range_succ_eq_map, List.map_cons, List.map_map]
      congr 1
      refine List.map_congr_left ?_
      intro i hi
      have hi2 : i < ts.length := List.mem_range.1 hi
      have hlt : 1 + i + 1 < 2 ^ 32 := by omega
      have harg : 1 + i + 1 = Nat.succ i + 1 := by omega
      simp only [Function.comp_apply]
      rw [Nat.mod_eq_of_lt hlt, harg]
    refine ⟨hmain, ?_, ?_⟩
    · rw [hmain, count_true_range]
      omega
    · intro hm
      rw [hmain, List.getElem?_map, List.getElem?_range hm]
      simp [show ¬ (max + 1 ≤ max) from by omega]
  · intro rl ip c w t hl ht
    exact check_inc_reset hl ht

/-- Witness for C4 at max 2 and four same-window calls: at most two return
true. -/
theorem c4_rate_limiter_witness :
    (runCalls (RateLimiter.new 2) cexIp [0, 1, 2, 3]).1.count true ≤ 2 :=
  (c4_rate_limiter.1 2 cexIp 0 [1, 2, 3] (by decide) (by decide)).2.1

/-- C4 counterexample: with max_requests_per_minute equal to 2 ^ 32 - 1,
after 2 ^ 32 - 1 calls inside one window the wrapping u32 counter makes
the next call, which is the (max+1)-th of the window, return true; the
claim says the (max+1)-th call in a window returns false. -/
theorem c4_counterexample :
    (check_and_increment
      (runCalls (RateLimiter.new (2 ^ 32 - 1)) cexIp
        (List.replicate (2 ^ 32 - 1) 0)).2
      cexIp 0).1 = true := by
  have h32 : (2 : Nat) ^ 32 = 4294967296 := by norm_num
  have hrep : List.replicate ((2 : Nat) ^ 32 - 1) (0 : Int) =
      (0 : Int) :: List.replicate ((2 : Nat) ^ 32 - 2) 0 := by
    rw [show (2 : Nat) ^ 32 - 1 = ((2 : Nat) ^ 32 - 2) + 1 by omega]
    rw [List.replicate_succ]
  rw [hrep]
  have hstep := @check_inc_fresh (RateLimiter.new ((2 : Nat) ^ 32 - 1)) cexIp 0 rfl
  have hs : (check_and_increment (RateLimiter.new ((2 : Nat) ^ 32 - 1)) cexIp 0).2 =
      ⟨insertA (RateLimiter.new ((2 : Nat) ^ 32 - 1)).requests cexIp (1, 0),
        (2 : Nat) ^ 32 - 1⟩ := by
    rw [hstep]
    rfl
  have hlk2 : lookupA
      (insertA (RateLimiter.new ((2 : Nat) ^ 32 - 1)).requests cexIp (1, 0)) cexIp =
      some (1, 0) := lookupA_insertA_self _ _ _
  obtain ⟨h1, h2, h3⟩ :=
    runCalls_window cexIp 0 (List.replicate ((2 : Nat) ^ 32 - 2) 0)
      ⟨insertA (RateLimiter.new ((2 : Nat) ^ 32 - 1)).requests cexIp (1, 0),
        (2 : Nat) ^ 32 - 1⟩
      1 hlk2 (by norm_num)
      (fun u hu => by rw [List.eq_of_mem_replicate hu]; omega)
  have hsnd : ∀ (rl : RateLimiter) (t : Int) (us : List Int),
      (runCalls rl cexIp (t :: us)).2 = (runCalls (check_and_increment rl cexIp t).2 cexIp us).2 :=
    fun rl t us => rfl
  rw [hsnd, hs]
  have hcount : (1 + (List.replicate ((2 : Nat) ^ 32 - 2) (0 : Int)).length) % 2 ^ 32 =
      2 ^ 32 - 1 := by
    rw [List.length_replicate, Nat.mod_eq_of_lt (by omega)]
    omega
  rw [hcount] at h2
  rw [check_inc_window h2 (by omega)]
  have hzero : ((2 : Nat) ^ 32 - 1 + 1) % 2 ^ 32 = 0 := by
    rw [show (2 : Nat) ^ 32 - 1 + 1 = 2 ^ 32 by omega]
    exact Nat.mod_self _
  rw [hzero, h3]
  rfl

/-! Lemmas for percent decoding. -/

theorem hexVal_le {b v : Nat} (h : hexVal b = some v) : v ≤ 15 := by
  unfold hexVal at h
  split_ifs at h <;> (injection h with h2; omega)

theorem parseHexDigits_single (c : Char) : parseHexDigits [c] = hexVal c.toNat := by
  cases hv : hexVal c.toNat with
  | none => simp [parseHexDigits, parseHexDigits.go, hv]
  | some v =>
    have hle := hexVal_le hv
    have hlt : ¬ (0 * 16 + v > 255) := by omega
    simp [parseHexDigits, parseHexDigits.go, hv, hlt]
    omega

theorem parseByte16_pair (h1 h2 : Char) :
    parseByte16 [h1, h2] =
      if h1 = '+' then hexVal h2.toNat
      else if (hexVal h1.toNat).isSome ∧ (hexVal h2.toNat).isSome then
        some (16 * (hexVal h1.toNat).getD 0 + (hexVal h2.toNat).getD 0)
      else none := by
  by_cases hp : h1 = '+'
  · subst hp
    simp [parseByte16, parseHexDigits_single]
  · rw [if_neg hp]
    by_cases hm : h1 = '-'
    · subst hm
      have hnone : hexVal 45 = none := by decide
      simp [parseByte16, hnone]
    · have hred : parseByte16 [h1, h2] = parseHexDigits [h1, h2] := by
        simp [parseByte16, hp, hm]
      rw [hred]
      cases hv1 : hexVal h1.toNat with
      | none => simp [parseHexDigits, parseHexDigits.go, hv1]
      | some v1 =>
        have hle1 := hexVal_le hv1
        have hlt1 : ¬ (0 * 16 + v1 > 255) := by omega
        cases hv2 : hexVal h2.toNat with
        | none => simp [parseHexDigits, parseHexDigits.go, hv1, hv2, hlt1]
        | some v2 =>
          have hle2 := hexVal_le hv2
          have hlt2 : ¬ ((0 * 16 + v1) * 16 + v2 > 255) := by omega
          have harith : (0 * 16 + v1) * 16 + v2 = 16 * v1 + v2 := by ring
          simp [parseHexDigits, parseHexDigits.go, hv1, hv2, hlt1, hlt2, harith]
          omega

theorem parseByte16_none_cond {h1 h2 : Char} (h : parseByte16 [h1, h2] = none) :
    ((hexVal h1.toNat).isSome && (hexVal h2.toNat).isSome ||
      (h1 == '+') && (hexVal h2.toNat).isSome) = false := by
  rw [parseByte16_pair] at h
  by_cases hp : h1 = '+'
  · subst hp
    rw [if_pos rfl] at h
    simp [h]
  · rw [if_neg hp] at h
    by_cases hb : (hexVal h1.toNat).isSome ∧ (hexVal h2.toNat).isSome
    · rw [if_pos hb] at h
      exact absurd h (by simp)
    · have hp2 : (h1 == '+') = false := by simp [hp]
      rw [hp2]
      cases ha : (hexVal h1.toNat).isSome <;> cases hc : (hexVal h2.toNat).isSome <;>
        simp_all

theorem parseByte16_some_cond {h1 h2 : Char} {v : Nat}
    (h : parseByte16 [h1, h2] = some v) :
    (((hexVal h1.toNat).isSome && (hexVal h2.toNat).isSome ||
      (h1 == '+') && (hexVal h2.toNat).isSome) = true) ∧
    v = (if h1 = '+' then (hexVal h2.toNat).getD 0
      else 16 * (hexVal h1.toNat).getD 0 + (hexVal h2.toNat).getD 0) := by
  rw [parseByte16_pair] at h
  by_cases hp : h1 = '+'
  · subst hp
    rw [if_pos rfl] at h
    refine ⟨by simp [h], ?_⟩
    rw [if_pos rfl, h]
    rfl
  · rw [if_neg hp] at h
    by_cases hb : (hexVal h1.toNat).isSome ∧ (hexVal h2.toNat).isSome
    · rw [if_pos hb] at h
      injection h with hv
      exact ⟨by simp [hb.1, hb.2], by rw [if_neg hp]; exact hv.symm⟩
    · rw [if_neg hb] at h
      exact absurd h (by simp)

theorem url_decode_cons (c : Char) (rest : List Char) :
    url_decode (c :: rest) =
      if c = '%' then
        match rest with
        | [] => none
        | [_] => none
        | h1 :: h2 :: rest2 =>
          match parseByte16 [h1, h2] with
          | none => none
          | some b => (url_decode rest2).map (fun t => b :: t)
      else if c = '+' then (url_decode rest).map (fun t => 32 :: t)
      else (url_decode rest).map (fun t => (c.toNat % 256) :: t) := by
  rw [url_decode.eq_def]

theorem urlWf_cons (c : Char) (rest : List Char) :
    urlWf (c :: rest) =
      if c = '%' then
        match rest with
        | [] => false
        | [_] => false
        | h1 :: h2 :: rest2 =>
          ((hexVal h1.toNat).isSome && (hexVal h2.toNat).isSome ||
            (h1 == '+') && (hexVal h2.toNat).isSome) && urlWf rest2
      else urlWf rest := by
  rw [urlWf.eq_def]

theorem urlSpecOut_cons (c : Char) (rest : List Char) :
    urlSpecOut (c :: rest) =
      if c = '%' then
        match rest with
        | [] => []
        | [_] => []
        | h1 :: h2 :: rest2 =>
          (if h1 = '+' then (hexVal h2.toNat).getD 0
            else 16 * (hexVal h1.toNat).getD 0 + (hexVal h2.toNat).getD 0) :: urlSpecOut rest2
      else if c = '+' then 32 :: urlSpecOut rest
      else c.toNat % 256 :: urlSpecOut rest := by
  rw [urlSpecOut.eq_def]

/-- C10 (amended): url_decode fails exactly when some percent escape is
incomplete or its two characters do not parse under u8::from_str_radix in
base 16, that is, they are neither two hex digits nor a plus sign followed
by one hex digit; on well-formed input it maps an XX escape to the byte
XX, a plus-digit escape to that digit value, a bare plus to the space
byte 32, and any other character to its code point reduced modulo 256. -/
theorem c10_url_decode :
    (∀ cs : List Char, (url_decode cs).isSome = true ↔ urlWf cs = true) ∧
    (∀ cs : List Char, urlWf cs = true → url_decode cs = some (urlSpecOut cs)) := by
  have key : ∀ cs : List Char,
      ((url_decode cs).isSome = true ↔ urlWf cs = true) ∧
      (urlWf cs = true → url_decode cs = some (urlSpecOut cs)) := by
    intro cs
    induction cs using url_decode.induct with
    | case1 => simp [url_decode, urlWf, urlSpecOut]
    | case2 => simp [url_decode, urlWf]
    | case3 head => simp [url_decode, urlWf]
    | case4 h1 h2 rest2 hparse =>
      have hcond := parseByte16_none_cond hparse
      constructor
      · simp [url_decode, urlWf, hparse, hcond]
      · intro hwf
        simp [urlWf, hcond] at hwf
    | case5 h1 h2 rest2 v hparse ih =>
      obtain ⟨hcond, hv⟩ := parseByte16_some_cond hparse
      constructor
      · simp [url_decode, urlWf, hparse, hcond, ih.1]
      · intro hwf
        have hwf2 : urlWf rest2 = true := by
          simp [urlWf, hcond] at hwf
          exact hwf
        simp [url_decode, urlSpecOut, hparse, ih.2 hwf2, hv]
    | case6 rest hne ih =>
      constructor
      · rw [url_decode_cons, urlWf_cons]
        simp [hne, ih.1]
      · intro hwf
        rw [urlWf_cons] at hwf
        simp only [if_neg hne] at hwf
        rw [url_decode_cons, urlSpecOut_cons]
        simp [hne, ih.2 hwf]
    | case7 c rest hcp hcq ih =>
      constructor
      · rw [url_decode_cons, urlWf_cons]
        simp [hcp, hcq, ih.1]
      · intro hwf
        rw [urlWf_cons] at hwf
        simp only [if_neg hcp] at hwf
        rw [url_decode_cons, urlSpecOut_cons]
        simp [hcp, hcq, ih.2 hwf]
  exact ⟨fun cs => (key cs).1, fun cs => (key cs).2⟩

/-- Witness for C10 on a mixed input containing a plain character, a bare
plus, an XX escape and a plus-digit escape. -/
theorem c10_url_decode_witness :
    url_decode ['a', '+', '%', '4', '1', '%', '+', '5'] =
      some (urlSpecOut ['a', '+', '%', '4', '1', '%', '+', '5']) :=
  c10_url_decode.2 ['a', '+', '%', '4', '1', '%', '+', '5'] (by decide)

end Tracker
